import Mathlib

/-
Verification of the mdpypipe orchestration core: the continuation-passing
pipeline cursor (src/interfaces/pipeline.py), the job-state ledger
(src/context/database.py and the managers in src/context/context.py), the
remote polling loop (src/routines/routines.py, watch_queue_routine), and the
file-resolution helpers of EnvironmentMenager.

The pandas DataFrame of the ledger is embedded as a list of (index label,
row) pairs; a row is an association list from column name to cell value.
`DataFrame.loc[index] = row` is embedded as `upsertRow`: it replaces the
rows carrying that index label in place when the label is present and
appends at the end otherwise, which is exactly pandas' enlargement
behaviour. The pickle file on disk is the `stored` field. All queries used
by the program address columns of the fixed ledger schema, so a query is a
list of (column, value) pairs evaluated over the association list.
-/

namespace Mdpypipe

/-- A ledger row: an association list from column name to cell value,
mirroring one row of the pandas DataFrame with its named columns. -/
abbrev Row := List (String × String)

/-- Reading a cell of a row: value of the first binding of the column,
mirroring selecting a DataFrame column at a row. -/
def getCell : Row → String → Option String
  | [], _ => none
  | p :: tl, c => if p.1 == c then some p.2 else getCell tl c

/-- Writing one cell of a row, mirroring `df.loc[mask, column] = value`
restricted to a single row: every binding of that column is replaced by
the new value, all other bindings are untouched. -/
def setCell : Row → String → String → Row
  | [], _, _ => []
  | p :: tl, c, v =>
    (if p.1 == c then (c, v) else p) :: setCell tl c v

/-- Whether a row carries a binding for the column. -/
def hasCol (r : Row) (c : String) : Bool :=
  r.any (fun p => p.1 == c)

/-- Embedding of `Database._get_mask` restricted to one row: the row satisfies every
(column, value) predicate of the query (logical AND of exact equality). -/
def rowMatches (r : Row) (query : List (String × String)) : Bool :=
  query.all (fun q => getCell r q.1 == some q.2)

/-- Embedding of `df.loc[i] = r`: replace the rows labelled `i` in place when the label
is present, append `(i, r)` at the end otherwise (pandas enlargement). -/
def upsertRow (db : List (Int × Row)) (i : Int) (r : Row) : List (Int × Row) :=
  if db.any (fun p => p.1 == i) then
    db.map (fun p => if p.1 == i then (i, r) else p)
  else
    db ++ [(i, r)]

/-- Lookup of the row stored at an index label. -/
def lookupRow (db : List (Int × Row)) (i : Int) : Option Row :=
  (db.find? (fun p => p.1 == i)).map Prod.snd

/-- The `Database` class of src/context/database.py. `database` is the main
in-memory DataFrame, `tmp_database` the staging DataFrame, and `stored` the
content of the pickle file at `database_path`. -/
structure Database where
  columns : List String
  database : List (Int × Row)
  tmp_database : List (Int × Row)
  stored : List (Int × Row)
deriving DecidableEq

/-- Source `Database.from_scratch`: pickle an empty table, then open it. -/
def Database.from_scratch (cols : List String) : Database :=
  { columns := cols, database := [], tmp_database := [], stored := [] }

/-- Source `Database.save`: flush each staged row into the main table with
`self.database.loc[index] = self.tmp_database.loc[index]`, clear staging,
and pickle the full main table to disk. -/
def Database.save (d : Database) : Database :=
  let newdb := d.tmp_database.foldl (fun acc p => upsertRow acc p.1 p.2) d.database
  { d with database := newdb, tmp_database := [], stored := newdb }

/-- Source `Database.add_entry`: append the entry to the staging table under the
given index label, then immediately `save`. -/
def Database.add_entry (d : Database) (index : Int) (entry : Row) : Database :=
  Database.save { d with tmp_database := d.tmp_database ++ [(index, entry)] }

/-- Source `Database.find_entries`: the main-table rows matching every predicate
of the query, with their index labels. -/
def Database.find_entries (d : Database) (query : List (String × String)) :
    List (Int × Row) :=
  d.database.filter (fun p => rowMatches p.2 query)

/-- Source `Database.modify_entry`: `self.database.loc[self._get_mask(query), column]
= value` sets the one column to the one value on every row matching the
query and touches nothing else; it does not save to disk. -/
def Database.modify_entry (d : Database) (to_modify : String × String)
    (query : List (String × String)) : Database :=
  { d with database := d.database.map (fun p =>
      if rowMatches p.2 query then (p.1, setCell p.2 to_modify.1 to_modify.2) else p) }

/-- The ledger schema created by `DatabaseMenager._init_database`. -/
def ledgerColumns : List String :=
  ["ROOT DIR", "PROJECT NAME", "SIMULATION NAME", "TOPOLOGY FILE",
   "COORDINATE FILE", "CONFIG FILE", "STAGE", "REMOTE ADRESS", "REMOTE DIR",
   "LUSTRE DIR", "PID"]

/-- Source `DatabaseMenager.get_last_index`: 1 on an empty main table, otherwise
the index label of the last row (`database.index[-1]`). -/
def get_last_index (d : Database) : Int :=
  match d.database.getLast? with
  | none => 1
  | some p => p.1

/-- The record dict built by `DatabaseMenager.add_entry`, in source order;
`STAGE` is always initialised to "Unfinished". -/
def mkLedgerRecord (root project_name simulation_name topol coord config
    remote_address remote_dir lustre_dir pid : String) : Row :=
  [("ROOT DIR", root), ("PROJECT NAME", project_name),
   ("SIMULATION NAME", simulation_name), ("TOPOLOGY FILE", topol),
   ("COORDINATE FILE", coord), ("CONFIG FILE", config),
   ("STAGE", "Unfinished"), ("REMOTE ADRESS", remote_address),
   ("REMOTE DIR", remote_dir), ("LUSTRE DIR", lustre_dir), ("PID", pid)]

/-- The slice of `MDContext` the ledger claims depend on: the project name
from the environment manager and the ledger owned by the database manager. -/
structure MDContext where
  project_name : String
  db : Database

/-- Source `MDContext.add_entry`: build the full record (the file names and slurm
fields are read off the context in the source and passed explicitly here)
and insert it into the ledger at the given index. -/
def MDContext.add_entry (c : MDContext) (index : Int) (simulation_name : String)
    (root topol coord config remote_address remote_dir lustre_dir pid : String) :
    MDContext :=
  let entry : Row := mkLedgerRecord root c.project_name simulation_name topol
    coord config remote_address remote_dir lustre_dir pid
  { c with db := c.db.add_entry index entry }

/-- Source `MDContext.find_index`: query the ledger by project name and simulation
name; empty result gives `last_index + 1`, more than one match raises, a
unique match returns its index label. The function only reads the ledger. -/
def MDContext.find_index (c : MDContext) (simulation_name : String) :
    Except String Int :=
  let found := c.db.find_entries
    [("PROJECT NAME", c.project_name), ("SIMULATION NAME", simulation_name)]
  match found with
  | [] => .ok (get_last_index c.db + 1)
  | [p] => .ok p.1
  | _ => .error "More than one index entries."

/-- Whether an `Except` result is the raising branch. -/
def exceptIsError (e : Except String Int) : Bool :=
  match e with
  | .error _ => true
  | .ok _ => false

/-- A ledger state built from a fresh database by a sequence of
`add_entry` calls. -/
def applyEntries (d : Database) : List (Int × Row) → Database
  | [] => d
  | p :: rest => applyEntries (d.add_entry p.1 p.2) rest

/- Pipeline / cursor (src/interfaces/pipeline.py). A step receives the
context and the continuation and returns the final context; a step that
never invokes its continuation is one that factors through a function of
the context alone. -/

/-- The continuation handed to a step (`NextStep` in the source). -/
abbrev NextStep (Context : Type) := Context → Context

/-- A pipeline step (`PipeStep` protocol): context and continuation in,
resulting context out. -/
abbrev PipeStep (Context : Type) := Context → NextStep Context → Context

/-- Running a list of steps in continuation-passing style: the recursion of
`PipeCursor.__call__` expressed over the remaining-steps list. -/
def runSteps {Context : Type} : List (PipeStep Context) → Context → Context
  | [], ctx => ctx
  | s :: rest, ctx => s ctx (runSteps rest)

/-- Source class `PipeCursor`: wraps the remaining-steps list. -/
structure PipeCursor (Context : Type) where
  queue : List (PipeStep Context)

/-- Source `PipeCursor.__call__`: empty queue is a no-op; otherwise pop the first
step, build a fresh cursor over the tail, and call the step with that
cursor as continuation. -/
def PipeCursor.call {Context : Type} (cur : PipeCursor Context) (ctx : Context) :
    Context :=
  runSteps cur.queue ctx

/-- Source class `Pipeline`: ordered step list; calling it builds a cursor over the full
queue and invokes it. -/
structure Pipeline (Context : Type) where
  queue : List (PipeStep Context)

/-- Source `Pipeline.__call__`. -/
def Pipeline.call {Context : Type} (p : Pipeline Context) (ctx : Context) : Context :=
  (PipeCursor.mk p.queue).call ctx

/- Helper lemmas about upsertRow and lookupRow. -/

lemma find?_map_replace (db : List (Int × Row)) (i : Int) (r : Row)
    (h : db.any (fun p => p.1 == i) = true) :
    (db.map (fun p => if p.1 == i then (i, r) else p)).find?
      (fun p => p.1 == i) = some (i, r) := by
  induction db with
  | nil => simp at h
  | cons q tl ih =>
    rw [List.map_cons]
    by_cases hq : (q.1 == i) = true
    · rw [if_pos hq, List.find?_cons_of_pos]
      show (i == i) = true
      exact beq_self_eq_true i
    · have htl : tl.any (fun p => p.1 == i) = true := by
        rw [List.any_cons] at h
        rcases Bool.or_eq_true_iff.mp h with h1 | h2
        · exact absurd h1 hq
        · exact h2
      rw [if_neg hq, List.find?_cons_of_neg]
      · exact ih htl
      · exact hq

lemma find?_append_right (db : List (Int × Row)) (i : Int) (r : Row)
    (h : db.any (fun p => p.1 == i) = false) :
    (db ++ [(i, r)]).find? (fun p => p.1 == i) = some (i, r) := by
  induction db with
  | nil =>
    rw [List.nil_append]
    exact List.find?_cons_of_pos _ (beq_self_eq_true i)
  | cons q tl ih =>
    rw [List.any_cons] at h
    rcases Bool.or_eq_false_iff.mp h with ⟨h1, h2⟩
    rw [List.cons_append, List.find?_cons_of_neg]
    · exact ih h2
    · intro hc
      have hc2 : (q.1 == i) = true := hc
      rw [h1] at hc2
      exact Bool.false_ne_true hc2

lemma lookupRow_upsertRow_self (db : List (Int × Row)) (i : Int) (r : Row) :
    lookupRow (upsertRow db i r) i = some r := by
  unfold lookupRow upsertRow
  by_cases h : db.any (fun p => p.1 == i) = true
  · rw [if_pos h, find?_map_replace db i r h]
    rfl
  · have h' : db.any (fun p => p.1 == i) = false := by
      cases hb : db.any (fun p => p.1 == i) with
      | true => exact absurd hb h
      | false => rfl
    rw [if_neg h, find?_append_right db i r h']
    rfl

lemma foldl_upsert_append (l : List (Int × Row)) (db : List (Int × Row))
    (i : Int) (r : Row) :
    (l ++ [(i, r)]).foldl (fun acc p => upsertRow acc p.1 p.2) db =
      upsertRow (l.foldl (fun acc p => upsertRow acc p.1 p.2) db) i r := by
  rw [List.foldl_append]
  rfl

/-- Claim C1: invoking a PipeCursor over an empty step list returns the
context untouched without calling any step; over a non-empty list it calls
exactly the first step with a fresh cursor over the tail as its
continuation; and when that first step never invokes its continuation
(its result factors through the context alone), no later step of the list
runs: the result is independent of the tail. -/
theorem pipeCursor_call_spec {Context : Type} (ctx : Context)
    (s : PipeStep Context) (rest : List (PipeStep Context))
    (g : Context → Context) (hs : ∀ c k, s c k = g c) :
    (PipeCursor.mk ([] : List (PipeStep Context))).call ctx = ctx ∧
    (PipeCursor.mk (s :: rest)).call ctx = s ctx (PipeCursor.mk rest).call ∧
    (PipeCursor.mk (s :: rest)).call ctx = g ctx := by
  refine ⟨rfl, rfl, ?_⟩
  show s ctx (runSteps rest) = g ctx
  exact hs ctx (runSteps rest)

/-- Witness for C1 at a concrete context type and concrete steps: a step
that ignores its continuation short-circuits the pipeline. -/
theorem pipeCursor_call_spec_witness :
    (PipeCursor.mk ([] : List (PipeStep (List Nat)))).call [5] = [5] ∧
    (PipeCursor.mk ([fun c _ => 0 :: c, fun c k => k (1 :: c)] :
      List (PipeStep (List Nat)))).call [5] = [0, 5] := by
  have h := pipeCursor_call_spec ([5] : List Nat)
    (fun c _ => 0 :: c) [fun c k => k (1 :: c)] (fun c => 0 :: c)
    (fun _ _ => rfl)
  exact ⟨h.1, h.2.2⟩

/-- Claim C2: after `add_entry(index, record)` the staging table is empty,
the main table holds the record at that index label, and the pickle on
disk equals the full main table, so no durable uncommitted window extends
past the call. -/
theorem add_entry_commits (d : Database) (index : Int) (entry : Row) :
    (d.add_entry index entry).tmp_database = [] ∧
    lookupRow (d.add_entry index entry).database index = some entry ∧
    (d.add_entry index entry).stored = (d.add_entry index entry).database := by
  refine ⟨rfl, ?_, rfl⟩
  show lookupRow
    ((d.tmp_database ++ [(index, entry)]).foldl
      (fun acc p => upsertRow acc p.1 p.2) d.database) index = some entry
  rw [foldl_upsert_append]
  exact lookupRow_upsertRow_self _ index entry

/-- Claim C3: on every ledger state reached from a fresh database by a
sequence of `add_entry` calls, `save` is idempotent: a second consecutive
`save` leaves the main table, the staging table and the on-disk pickle
exactly as the first left them. -/
theorem save_idempotent_after_add_entries (cols : List String)
    (ops : List (Int × Row)) :
    ((applyEntries (Database.from_scratch cols) ops).save).save =
      (applyEntries (Database.from_scratch cols) ops).save := rfl

lemma bool_eq_false {b : Bool} (h : ¬ b = true) : b = false := by
  cases b with
  | false => rfl
  | true => exact absurd rfl h

/-- Claim C5: `find_index` raises exactly when more than one ledger row
matches the (project name, simulation name) query; with zero or one match
it returns an index instead of silently picking among several rows. The
embedding of `find_index` is a pure read of the ledger, so raising cannot
change it. -/
theorem find_index_error_iff (c : MDContext) (simulation_name : String) :
    exceptIsError (c.find_index simulation_name) = true ↔
      1 < (c.db.find_entries
        [("PROJECT NAME", c.project_name),
         ("SIMULATION NAME", simulation_name)]).length := by
  rcases hf : c.db.find_entries
      [("PROJECT NAME", c.project_name), ("SIMULATION NAME", simulation_name)]
    with _ | ⟨p, _ | ⟨q, tl⟩⟩ <;>
    simp [MDContext.find_index, hf, exceptIsError]

/-- Claim C9: on a fresh ledger whose main table is empty, `find_index`
returns 2 for every simulation name (`get_last_index` yields 1 on an empty
table and `find_index` adds 1), so the first record ever added lands at
index 2 and index 1 stays unoccupied. -/
theorem fresh_ledger_first_index_two (project_name simulation_name root topol
    coord config remote_address remote_dir lustre_dir pid : String) :
    (MDContext.mk project_name
        (Database.from_scratch ledgerColumns)).find_index simulation_name =
      .ok 2 ∧
    lookupRow ((MDContext.mk project_name
        (Database.from_scratch ledgerColumns)).add_entry 2 simulation_name
        root topol coord config remote_address remote_dir lustre_dir
        pid).db.database 2 =
      some (mkLedgerRecord root project_name simulation_name topol coord
        config remote_address remote_dir lustre_dir pid) ∧
    lookupRow ((MDContext.mk project_name
        (Database.from_scratch ledgerColumns)).add_entry 2 simulation_name
        root topol coord config remote_address remote_dir lustre_dir
        pid).db.database 1 = none :=
  ⟨rfl, rfl, rfl⟩

lemma getCell_mkLedgerRecord_project (root pn sn topol coord config ra rd ld
    pid : String) :
    getCell (mkLedgerRecord root pn sn topol coord config ra rd ld pid)
      "PROJECT NAME" = some pn := rfl

lemma getCell_mkLedgerRecord_simname (root pn sn topol coord config ra rd ld
    pid : String) :
    getCell (mkLedgerRecord root pn sn topol coord config ra rd ld pid)
      "SIMULATION NAME" = some sn := rfl

lemma mkLedgerRecord_matches (root pn sn topol coord config ra rd ld
    pid : String) :
    rowMatches (mkLedgerRecord root pn sn topol coord config ra rd ld pid)
      [("PROJECT NAME", pn), ("SIMULATION NAME", sn)] = true := by
  simp [rowMatches, getCell_mkLedgerRecord_project,
    getCell_mkLedgerRecord_simname]

lemma filter_map_replace (db : List (Int × Row)) (i : Int) (r : Row)
    (q : List (String × String))
    (hnodup : (db.map Prod.fst).Nodup)
    (hfresh : ∀ p ∈ db, rowMatches p.2 q = false)
    (hr : rowMatches r q = true)
    (h : db.any (fun p => p.1 == i) = true) :
    (db.map (fun p => if p.1 == i then (i, r) else p)).filter
      (fun p => rowMatches p.2 q) = [(i, r)] := by
  induction db with
  | nil => simp at h
  | cons hd tl ih =>
    rw [List.map_cons]
    have hnodup2 : (tl.map Prod.fst).Nodup :=
      (List.nodup_cons.mp (by simpa using hnodup)).2
    have hfresh2 : ∀ p ∈ tl, rowMatches p.2 q = false :=
      fun p hp => hfresh p (List.mem_cons_of_mem hd hp)
    by_cases hq : (hd.1 == i) = true
    · rw [if_pos hq]
      have hhd : hd.1 = i := by
        have := beq_iff_eq.mp hq
        exact this
      have hnotin : ∀ p ∈ tl, ((p.1 == i) = true → False) := by
        intro p hp hpi
        have hmem : hd.1 ∈ tl.map Prod.fst := by
          rw [hhd, ← beq_iff_eq.mp hpi]
          exact List.mem_map_of_mem Prod.fst hp
        exact (List.nodup_cons.mp (by simpa using hnodup)).1 hmem
      have hmapid :
          tl.map (fun p => if p.1 == i then (i, r) else p) = tl := by
        have hcongr : tl.map (fun p => if p.1 == i then (i, r) else p) =
            tl.map (fun p => p) := by
          apply List.map_congr_left
          intro p hp
          rw [if_neg (hnotin p hp)]
        rw [hcongr, List.map_id']
      have hnil : tl.filter (fun p => rowMatches p.2 q) = [] := by
        rw [List.filter_eq_nil_iff]
        intro p hp hc
        rw [hfresh2 p hp] at hc
        exact Bool.false_ne_true hc
      rw [hmapid, List.filter_cons_of_pos]
      · rw [hnil]
      · exact hr
    · rw [if_neg hq]
      have hhd : ¬(rowMatches hd.2 q = true) := by
        intro hc
        rw [hfresh hd (List.mem_cons_self hd tl)] at hc
        exact Bool.false_ne_true hc
      have htl : tl.any (fun p => p.1 == i) = true := by
        rw [List.any_cons] at h
        rcases Bool.or_eq_true_iff.mp h with h1 | h2
        · exact absurd h1 hq
        · exact h2
      rw [List.filter_cons_of_neg]
      · exact ih hnodup2 hfresh2 htl
      · exact hhd

lemma filter_upsertRow_fresh (db : List (Int × Row)) (i : Int) (r : Row)
    (q : List (String × String))
    (hnodup : (db.map Prod.fst).Nodup)
    (hfresh : ∀ p ∈ db, rowMatches p.2 q = false)
    (hr : rowMatches r q = true) :
    (upsertRow db i r).filter (fun p => rowMatches p.2 q) = [(i, r)] := by
  unfold upsertRow
  by_cases h : db.any (fun p => p.1 == i) = true
  · rw [if_pos h]
    exact filter_map_replace db i r q hnodup hfresh hr h
  · rw [if_neg h, List.filter_append]
    have hnil : db.filter (fun p => rowMatches p.2 q) = [] := by
      rw [List.filter_eq_nil_iff]
      intro p hp hc
      rw [hfresh p hp] at hc
      exact Bool.false_ne_true hc
    rw [hnil, List.nil_append, List.filter_cons_of_pos]
    · rfl
    · exact hr

lemma find_index_roundtrip_aux (c : MDContext) (simulation_name root topol
    coord config remote_address remote_dir lustre_dir pid : String) (i : Int)
    (htmp : c.db.tmp_database = [])
    (hnodup : (c.db.database.map Prod.fst).Nodup)
    (hfresh : ∀ p ∈ c.db.database,
      rowMatches p.2 [("PROJECT NAME", c.project_name),
        ("SIMULATION NAME", simulation_name)] = false) :
    (c.add_entry i simulation_name root topol coord config remote_address
      remote_dir lustre_dir pid).find_index simulation_name = .ok i := by
  have hmatch := mkLedgerRecord_matches root c.project_name simulation_name
    topol coord config remote_address remote_dir lustre_dir pid
  have hdb : (c.add_entry i simulation_name root topol coord config
      remote_address remote_dir lustre_dir pid).db.database =
      upsertRow c.db.database i (mkLedgerRecord root c.project_name
        simulation_name topol coord config remote_address remote_dir
        lustre_dir pid) := by
    simp [MDContext.add_entry, Database.add_entry, Database.save, htmp]
  have hpn : (c.add_entry i simulation_name root topol coord config
      remote_address remote_dir lustre_dir pid).project_name =
      c.project_name := rfl
  have hfound : (c.add_entry i simulation_name root topol coord config
      remote_address remote_dir lustre_dir pid).db.find_entries
        [("PROJECT NAME", c.project_name),
         ("SIMULATION NAME", simulation_name)] =
      [(i, mkLedgerRecord root c.project_name simulation_name topol coord
        config remote_address remote_dir lustre_dir pid)] := by
    unfold Database.find_entries
    rw [hdb]
    exact filter_upsertRow_fresh c.db.database i _ _ hnodup hfresh hmatch
  simp [MDContext.find_index, hpn, hfound]

lemma map_fst_map_replace (db : List (Int × Row)) (i : Int) (r : Row) :
    (db.map (fun p => if p.1 == i then (i, r) else p)).map Prod.fst =
      db.map Prod.fst := by
  rw [List.map_map]
  apply List.map_congr_left
  intro p _
  by_cases hp : (p.1 == i) = true
  · show Prod.fst (if (p.1 == i) = true then (i, r) else p) = p.1
    rw [if_pos hp]
    exact (beq_iff_eq.mp hp).symm
  · show Prod.fst (if (p.1 == i) = true then (i, r) else p) = p.1
    rw [if_neg hp]

lemma nodup_labels_upsertRow (db : List (Int × Row)) (i : Int) (r : Row)
    (h : (db.map Prod.fst).Nodup) :
    ((upsertRow db i r).map Prod.fst).Nodup := by
  unfold upsertRow
  by_cases hany : db.any (fun p => p.1 == i) = true
  · rw [if_pos hany, map_fst_map_replace]
    exact h
  · rw [if_neg hany, List.map_append]
    have hnotin : i ∉ db.map Prod.fst := by
      intro hmem
      rcases List.mem_map.mp hmem with ⟨p, hp, hpi⟩
      exact hany (List.any_eq_true.mpr ⟨p, hp, beq_iff_eq.mpr hpi⟩)
    exact (List.perm_append_singleton i (db.map Prod.fst)).nodup_iff.mpr
      (List.nodup_cons.mpr ⟨hnotin, h⟩)

lemma add_entry_database_of_tmp_nil (d : Database) (i : Int) (r : Row)
    (h : d.tmp_database = []) :
    (d.add_entry i r).database = upsertRow d.database i r := by
  simp [Database.add_entry, Database.save, h]

/-- Every ledger state a sequence of add_entry calls produces from a fresh
database has an empty staging table and pairwise distinct index labels. -/
lemma applyEntries_invariants (d : Database) (ops : List (Int × Row))
    (htmp : d.tmp_database = [])
    (hnodup : (d.database.map Prod.fst).Nodup) :
    (applyEntries d ops).tmp_database = [] ∧
      ((applyEntries d ops).database.map Prod.fst).Nodup := by
  induction ops generalizing d with
  | nil => exact ⟨htmp, hnodup⟩
  | cons op rest ih =>
    refine ih (d.add_entry op.1 op.2) rfl ?_
    rw [add_entry_database_of_tmp_nil d op.1 op.2 htmp]
    exact nodup_labels_upsertRow d.database op.1 op.2 hnodup

/-- Claim C4: on any ledger reached by a sequence of add_entry calls from
a fresh database, when the simulation name has no matching ledger row yet,
computing the index with `find_index`, adding the entry at that index with
`add_entry`, and calling `find_index` again returns the same index. -/
theorem find_index_roundtrip (ops : List (Int × Row)) (c : MDContext)
    (simulation_name root topol coord config remote_address remote_dir
      lustre_dir pid : String) (i : Int)
    (hreach : c.db = applyEntries (Database.from_scratch ledgerColumns) ops)
    (hfresh : ∀ p ∈ c.db.database,
      rowMatches p.2 [("PROJECT NAME", c.project_name),
        ("SIMULATION NAME", simulation_name)] = false)
    (_hfirst : c.find_index simulation_name = .ok i) :
    (c.add_entry i simulation_name root topol coord config remote_address
      remote_dir lustre_dir pid).find_index simulation_name = .ok i := by
  have hinv := applyEntries_invariants (Database.from_scratch ledgerColumns)
    ops rfl (by simp [Database.from_scratch])
  rw [← hreach] at hinv
  exact find_index_roundtrip_aux c simulation_name root topol coord config
    remote_address remote_dir lustre_dir pid i hinv.1 hinv.2 hfresh

/-- Witness for C4 on a fresh empty ledger: the first call yields index 2,
and after inserting the record there the lookup returns 2 again. -/
theorem find_index_roundtrip_witness :
    ((MDContext.mk "demo" (Database.from_scratch ledgerColumns)).add_entry 2
      "1-min" "/root" "t.top" "c.gro" "cf.mdp" "None" "None" "None"
      "-1").find_index "1-min" = .ok 2 :=
  find_index_roundtrip []
    (MDContext.mk "demo" (Database.from_scratch ledgerColumns))
    "1-min" "/root" "t.top" "c.gro" "cf.mdp" "None" "None" "None" "-1" 2
    rfl (by simp [Database.from_scratch]) rfl

lemma getCell_setCell_self (r : Row) (c v : String) (h : hasCol r c = true) :
    getCell (setCell r c v) c = some v := by
  induction r with
  | nil => simp [hasCol] at h
  | cons p tl ih =>
    by_cases hp : (p.1 == c) = true
    · simp [setCell, getCell, hp]
    · have hp' : (p.1 == c) = false := bool_eq_false hp
      have htl : hasCol tl c = true := by
        unfold hasCol at h
        rw [List.any_cons] at h
        rcases Bool.or_eq_true_iff.mp h with h1 | h2
        · exact absurd h1 hp
        · exact h2
      simp [setCell, getCell, hp', ih htl]

lemma getCell_setCell_ne (r : Row) (c v c2 : String)
    (h : (c == c2) = false) :
    getCell (setCell r c v) c2 = getCell r c2 := by
  induction r with
  | nil => rfl
  | cons p tl ih =>
    by_cases hp : (p.1 == c) = true
    · have hip : p.1 = c := beq_iff_eq.mp hp
      have hp2 : (p.1 == c2) = false := by rw [hip]; exact h
      simp [setCell, getCell, hp, h, hp2, ih]
    · have hp' : (p.1 == c) = false := bool_eq_false hp
      by_cases hq : (p.1 == c2) = true
      · simp [setCell, getCell, hp', hq]
      · have hq' : (p.1 == c2) = false := bool_eq_false hq
        simp [setCell, getCell, hp', hq', ih]

/-- Claim C6: `modify_entry((column, value), query)` preserves the number
of rows; every row satisfying all query predicates keeps its index label,
gets exactly that column set to that value, and keeps every other column
unchanged; every row not matching the query is left entirely unchanged.
The rows carry the column, as every row of the fixed-schema ledger does. -/
theorem modify_entry_frame (d : Database) (column value : String)
    (query : List (String × String))
    (hcol : ∀ p ∈ d.database, hasCol p.2 column = true) :
    (d.modify_entry (column, value) query).database.length =
      d.database.length ∧
    ∀ (k : Nat) (p : Int × Row), d.database[k]? = some p →
      ((rowMatches p.2 query = true →
          (d.modify_entry (column, value) query).database[k]? =
            some (p.1, setCell p.2 column value) ∧
          getCell (setCell p.2 column value) column = some value ∧
          ∀ c2, (column == c2) = false →
            getCell (setCell p.2 column value) c2 = getCell p.2 c2) ∧
       (rowMatches p.2 query = false →
          (d.modify_entry (column, value) query).database[k]? = some p)) := by
  constructor
  · exact List.length_map _ _
  · intro k p hk
    have hmem : p ∈ d.database := List.getElem?_mem hk
    have hmap : (d.modify_entry (column, value) query).database[k]? =
        Option.map (fun p : Int × Row =>
          if rowMatches p.2 query then (p.1, setCell p.2 column value)
          else p) d.database[k]? :=
      List.getElem?_map _ _ _
    constructor
    · intro hm
      refine ⟨?_, getCell_setCell_self _ _ _ (hcol p hmem),
        fun c2 hne => getCell_setCell_ne _ _ _ _ hne⟩
      rw [hmap, hk]
      simp [hm]
    · intro hm
      rw [hmap, hk]
      simp [hm]

/-- Witness for C6 on a one-row ledger whose row matches the query: the
row is rewritten in place with the STAGE cell set. -/
theorem modify_entry_frame_witness :
    ((Database.mk ledgerColumns
        [(2, mkLedgerRecord "/r" "demo" "1-min" "t" "c" "f" "a" "rd" "ld"
          "-1")] [] []).modify_entry ("STAGE", "Finished")
        [("PROJECT NAME", "demo")]).database[0]? =
      some (2, setCell (mkLedgerRecord "/r" "demo" "1-min" "t" "c" "f" "a"
        "rd" "ld" "-1") "STAGE" "Finished") := by
  have h := modify_entry_frame
    (Database.mk ledgerColumns
      [(2, mkLedgerRecord "/r" "demo" "1-min" "t" "c" "f" "a" "rd" "ld"
        "-1")] [] [])
    "STAGE" "Finished" [("PROJECT NAME", "demo")] (by decide)
  exact ((h.2 0 (2, mkLedgerRecord "/r" "demo" "1-min" "t" "c" "f" "a" "rd"
    "ld" "-1") (by decide)).1 (by decide)).1

/-- One remote poll of watch_queue_routine: the sacct command can fail
(non-zero return code), its output can fail to parse, or it yields a
status string. -/
inductive PollResult where
  | failCmd : PollResult
  | unparsable : PollResult
  | status : String → PollResult
deriving DecidableEq

/-- The externally observable actions of the polling loop: issuing the
remote status query, running the download-logs-plus-check-runs pipeline,
and sleeping for the fixed 900-second interval. -/
inductive WatchEvent where
  | poll : WatchEvent
  | downloadCheck : WatchEvent
  | sleepWait : WatchEvent
deriving DecidableEq

/-- The `while True` loop of watch_queue_routine over a script of
successive poll outcomes: a failing command or unparsable output breaks
out immediately after the poll; a terminal status (neither RUNNING nor
PENDING) runs the download-logs/check-runs pipeline and breaks without
sleeping; otherwise the pipeline runs, the loop sleeps and polls again. -/
def watch_loop : List PollResult → List WatchEvent
  | [] => []
  | r :: rest =>
    match r with
    | .failCmd => [.poll]
    | .unparsable => [.poll]
    | .status s =>
      if s != "RUNNING" && s != "PENDING" then
        [.poll, .downloadCheck]
      else
        .poll :: .downloadCheck :: .sleepWait :: watch_loop rest

/-- Claim C7: when the remote status reports RUNNING on the first two
polls and COMPLETED on the third, the loop runs exactly two
download-logs-plus-check cycles (each followed by a sleep) before the
third poll; the third poll is terminal, triggering the final
download-plus-check and exiting with no sleep after it. -/
theorem watch_queue_two_cycles :
    watch_loop [.status "RUNNING", .status "RUNNING", .status "COMPLETED"] =
      [.poll, .downloadCheck, .sleepWait, .poll, .downloadCheck, .sleepWait,
       .poll, .downloadCheck] ∧
    ((watch_loop [.status "RUNNING", .status "RUNNING",
      .status "COMPLETED"]).take 6).count .downloadCheck = 2 ∧
    ((watch_loop [.status "RUNNING", .status "RUNNING",
      .status "COMPLETED"]).drop 6).count .sleepWait = 0 := by
  decide

/-- The Python str.startswith check of make_duplicate, over the characters
of the two names. -/
def nameStartsWith (d fname : String) : Bool :=
  fname.toList.isPrefixOf d.toList

/-- Embedding of `EnvironmentMenager.make_duplicate`'s counting loop over
the data-directory listing: the number of existing files whose name
starts with the incoming file's name. -/
def dupCount (listing : List String) (fname : String) : Nat :=
  (listing.filter (fun d => nameStartsWith d fname)).length

/-- The rename performed by make_duplicate, as the produced backup file
name (`None` when no duplicate exists and nothing is renamed). -/
def make_duplicate (listing : List String) (fname : String) : Option String :=
  let ndup := dupCount listing fname
  if ndup = 0 then none
  else some (fname ++ ".bck" ++ toString ndup)

/-- One round of the guard-then-write flow the source uses: the existing
file is renamed to the backup name make_duplicate produced, then the
caller writes a fresh file under the original name. -/
def backupRound (listing : List String) (fname : String) : List String :=
  match make_duplicate listing fname with
  | none => listing ++ [fname]
  | some b => (listing.erase fname) ++ [b, fname]

/-- Claim C8: starting from a data directory holding run.top, the three
successive make_duplicate calls (with the file rewritten after each
round) produce run.top.bck1, run.top.bck2 and run.top.bck3 — monotone,
never reusing a suffix — and in general the backup suffix equals the
count of files in the listing whose names start with the file's name. -/
theorem make_duplicate_backup_suffixes (listing : List String)
    (fname : String) (h : dupCount listing fname ≠ 0) :
    make_duplicate ["run.top"] "run.top" = some "run.top.bck1" ∧
    make_duplicate (backupRound ["run.top"] "run.top") "run.top" =
      some "run.top.bck2" ∧
    make_duplicate (backupRound (backupRound ["run.top"] "run.top")
      "run.top") "run.top" = some "run.top.bck3" ∧
    make_duplicate listing fname =
      some (fname ++ ".bck" ++ toString (dupCount listing fname)) := by
  refine ⟨by decide, by decide, by decide, ?_⟩
  simp [make_duplicate, h]

/-- Witness for C8 on a listing holding the file and one prior backup:
the produced suffix is the count of same-prefixed files. -/
theorem make_duplicate_backup_suffixes_witness :
    make_duplicate ["x.top", "x.top.bck1"] "x.top" =
      some ("x.top" ++ ".bck" ++
        toString (dupCount ["x.top", "x.top.bck1"] "x.top")) :=
  (make_duplicate_backup_suffixes ["x.top", "x.top.bck1"] "x.top"
    (by decide)).2.2.2

/-- A path as make_absolute sees it: whether it is absolute, and its
textual value. -/
structure PurePath where
  absolute : Bool
  name : String
deriving DecidableEq

/-- Embedding of `directory / file` for a relative file. -/
def joinPath (dir fname : String) : String := dir ++ "/" ++ fname

/-- Source `EnvironmentMenager.make_absolute` over an explicit list of existing
paths: an absolute path is returned unchanged with no existence check; a
relative path is searched under the root, parameter and data directories
in that order, returning the first candidate that exists, and raising
FileNotFoundError when none does. -/
def make_absolute (fs : List String) (root param data : String)
    (file : PurePath) : Except String String :=
  if file.absolute then .ok file.name
  else
    match ([root, param, data].map (fun d => joinPath d file.name)).find?
        (fun cand => fs.contains cand) with
    | some cand => .ok cand
    | none => .error (file.name ++ " has not been found.")

/-- Claim C10: an absolute path is returned unchanged without any
existence check — even over a filesystem where it does not exist — and
the not-found error can only arise for a relative path that exists under
none of the root, parameter and data directories. -/
theorem make_absolute_spec (fs : List String) (root param data : String)
    (file : PurePath) :
    (file.absolute = true →
      make_absolute fs root param data file = .ok file.name) ∧
    (∀ msg, make_absolute fs root param data file = .error msg →
      file.absolute = false ∧
      ∀ dir ∈ [root, param, data],
        fs.contains (joinPath dir file.name) = false) := by
  constructor
  · intro h
    simp [make_absolute, h]
  · intro msg herr
    unfold make_absolute at herr
    by_cases h : file.absolute = true
    · rw [if_pos h] at herr
      exact absurd herr (fun hc => Except.noConfusion hc)
    · refine ⟨bool_eq_false h, ?_⟩
      rw [if_neg h] at herr
      intro dir hdir
      cases hf : ([root, param, data].map
          (fun d => joinPath d file.name)).find?
          (fun cand => fs.contains cand) with
      | some cand =>
        rw [hf] at herr
        exact absurd herr (fun hc => Except.noConfusion hc)
      | none =>
        have hall := List.find?_eq_none.mp hf
        have hm : joinPath dir file.name ∈
            [root, param, data].map (fun d => joinPath d file.name) :=
          List.mem_map_of_mem _ hdir
        exact bool_eq_false (hall _ hm)

/-- Witness for C10: an absolute path is returned as-is over the empty
filesystem, where no path at all exists. -/
theorem make_absolute_spec_witness :
    make_absolute [] "/root" "/param" "/data"
      (PurePath.mk true "/nowhere/file.top") = .ok "/nowhere/file.top" :=
  (make_absolute_spec [] "/root" "/param" "/data"
    (PurePath.mk true "/nowhere/file.top")).1 rfl

end Mdpypipe
